import Mathlib

/-!
Verification of the free-list memory allocator in src/alloc.c.

The C code is shallowly embedded as follows:
* machine memory is a byte store Mem := Nat → Nat; a 64-bit field (the
  size field of a header / free node, or the next pointer of a free node)
  is read and written little-endian through readW / writeW;
* pointers are natural-number addresses; the C null pointer is address 0;
* the process-wide globals HEAD and NEXT, the heap break, and the point at
  which the OS refuses to extend the break (sbrk returning (void * ) -1)
  live in an explicit AllocState record;
* every C loop becomes a fuel-bounded recursion; with enough fuel the
  recursion performs exactly the iterations the C loop performs on
  nil-terminated lists, and the scenario theorems below always supply
  ample fuel.

Struct layout: alloc.h is not part of src/. Modelled from the spec:
the Block Header is a fixed 16-byte record whose size field is at offset 0
(section 3 of the spec: the header records the payload size, and the Free
Node occupies the same memory region as a Block Header), and a free_block
is the 16-byte record with the size field at offset 0 and the next link at
offset 8 (size_t and a pointer on the 64-bit target).  Hence
sizeof(header) = sizeof(free_block) = 16 and sizeof(void * ) = 8
throughout, matching the 64-bit machine the code manifestly targets.
-/

set_option maxRecDepth 100000

namespace Alloc



abbrev Mem := Nat → Nat

/-- Write one byte at address a. -/
def writeB (m : Mem) (a : Nat) (b : Nat) : Mem :=
  fun x => if x = a then b else m x

/-- Byte i of the 64-bit little-endian encoding of v. -/
def byteOf (v i : Nat) : Nat := v / 256 ^ i % 256

/-- Store a 64-bit word at address a, little-endian (the C store of a
size_t or pointer field). -/
def writeW (m : Mem) (a : Nat) (v : Nat) : Mem :=
  writeB (writeB (writeB (writeB (writeB (writeB (writeB (writeB m
    a (byteOf v 0)) (a + 1) (byteOf v 1)) (a + 2) (byteOf v 2))
    (a + 3) (byteOf v 3)) (a + 4) (byteOf v 4)) (a + 5) (byteOf v 5))
    (a + 6) (byteOf v 6)) (a + 7) (byteOf v 7)

/-- Load a 64-bit word at address a, little-endian. -/
def readW (m : Mem) (a : Nat) : Nat :=
  m a + 256 * m (a + 1) + 256 ^ 2 * m (a + 2) + 256 ^ 3 * m (a + 3) +
    256 ^ 4 * m (a + 4) + 256 ^ 5 * m (a + 5) + 256 ^ 6 * m (a + 6) +
    256 ^ 7 * m (a + 7)

/-- Every cell holds a byte value. -/
def ByteMem (m : Mem) : Prop := ∀ x, m x < 256

/-- The allocator's process-wide state: the byte memory, the globals
HEAD (free-list head) and NEXT (next-fit cursor) of alloc.c, the current
heap break, and the address-space limit beyond which sbrk fails. -/
structure AllocState where
  mem : Mem
  head : Nat
  next : Nat
  brk : Nat
  limit : Nat

/-- The addresses of the free-list nodes reachable from h by following the
next links (offset 8), stopping at null; fuel-bounded. -/
def chain (m : Mem) : Nat → Nat → List Nat
  | _, 0 => []
  | h, f + 1 => if h = 0 then [] else h :: chain m (readW m (h + 8)) f

/-- The pointer reached from h after following next links until null or
fuel runs out; used to state that a list is nil-terminated within fuel. -/
def follow (m : Mem) : Nat → Nat → Nat
  | h, 0 => h
  | h, f + 1 => if h = 0 then 0 else follow m (readW m (h + 8)) f

/-- find_prev of alloc.c: scan from the list head for the node whose byte
range (size field plus the 16 node bytes) ends exactly at block. -/
def findPrev (m : Mem) : Nat → Nat → Nat → Nat
  | _, _, 0 => 0
  | curr, block, f + 1 =>
    if curr = 0 then 0
    else if curr + readW m curr + 16 = block then curr
    else findPrev m (readW m (curr + 8)) block f

/-- Scan loop of find_next: look for the node whose address equals e. -/
def findNextGo (m : Mem) (e : Nat) : Nat → Nat → Nat
  | _, 0 => 0
  | curr, f + 1 =>
    if curr = 0 then 0
    else if curr = e then curr
    else findNextGo m e (readW m (curr + 8)) f

/-- find_next of alloc.c: the block end is computed once on entry. -/
def findNext (m : Mem) (h block : Nat) (fuel : Nat) : Nat :=
  findNextGo m (block + readW m block + 16) h fuel

/-- Scan loop of remove_free_block (the list head case is handled by the
caller remove_free_block). -/
def removeLoop (st : AllocState) (block : Nat) : Nat → Nat → AllocState
  | _, 0 => st
  | curr, f + 1 =>
    if curr = 0 then st
    else if readW st.mem (curr + 8) = block then
      { st with mem := writeW st.mem (curr + 8) (readW st.mem (block + 8)) }
    else removeLoop st block (readW st.mem (curr + 8)) f

/-- remove_free_block of alloc.c. -/
def remove_free_block (st : AllocState) (block : Nat) (fuel : Nat) :
    AllocState :=
  if st.head = block then { st with head := readW st.mem (block + 8) }
  else removeLoop st block st.head fuel

/-- split of alloc.c.  Returns the C return value (0 models the NULL
returned when the block cannot be split) together with the new state.
The writes follow the C statement order exactly. -/
def split (st : AllocState) (block : Nat) (size : Nat) : Nat × AllocState :=
  if readW st.mem block < size + 16 then (0, st)
  else
    let sp := block + size + 16
    let m1 := writeW st.mem sp (readW st.mem block - size - 16)
    let m2 := writeW m1 (sp + 8) (readW m1 (block + 8))
    let h1 := if block = st.head then sp else st.head
    let m3 := writeW m2 block size
    let m4 := writeW m3 (block + 8) sp
    (block, { st with mem := m4, head := h1, next := sp })

/-- First half of coalesce: absorb the previous neighbor when its range
ends exactly at blk; returns the new memory and the merge target.  The
size store happens first, then prev->next is re-read and relinked, exactly
as in the C statement order. -/
def coalesceStep1 (m : Mem) (prev blk : Nat) : Mem × Nat :=
  if prev ≠ 0 ∧ prev + readW m prev + 16 = blk then
    (if readW (writeW m prev (readW m prev + readW m blk + 16)) (prev + 8) =
        blk then
      writeW (writeW m prev (readW m prev + readW m blk + 16)) (prev + 8)
        (readW (writeW m prev (readW m prev + readW m blk + 16)) (blk + 8))
    else writeW m prev (readW m prev + readW m blk + 16), prev)
  else (m, blk)

/-- Second half of coalesce: absorb the next neighbor when the merge
target's range ends exactly at nxt. -/
def coalesceStep2 (m : Mem) (blk nxt : Nat) : Mem :=
  if nxt ≠ 0 ∧ blk + readW m blk + 16 = nxt then
    writeW (writeW m blk (readW m blk + readW m nxt + 16)) (blk + 8)
      (readW (writeW m blk (readW m blk + readW m nxt + 16)) (nxt + 8))
  else m

/-- coalesce of alloc.c: find_prev and find_next are both evaluated on
entry, then the previous and next neighbors are merged in turn. -/
def coalesce (st : AllocState) (blk : Nat) (fuel : Nat) : AllocState :=
  if blk = 0 then st
  else
    { st with mem := (coalesceStep2
        (coalesceStep1 st.mem (findPrev st.mem st.head blk fuel) blk).1
        (coalesceStep1 st.mem (findPrev st.mem st.head blk fuel) blk).2
        (findNext st.mem st.head blk fuel)) }

/-- do_alloc of alloc.c: read the break, compute align = 16 - (brk & 0xF)
(which is 16 when the break is already aligned, exactly as the C code
does), and request size + align bytes from the OS.  sbrk returns the old
break on success; on failure do_alloc returns NULL (address 0). -/
def do_alloc (st : AllocState) (size : Nat) : Nat × AllocState :=
  let align := 16 - st.brk % 16
  if st.brk + size + align ≤ st.limit then
    (st.brk, { st with brk := st.brk + size + align })
  else (0, st)

/-- The code after the search loop of tumalloc (lines 239-244): extend the
heap, write the header size, and return head + sizeof(header) computed
with header pointer arithmetic, i.e. 16 * 16 = 256 bytes past the header.
Note that the C code does not check do_alloc's result and does not update
NEXT here. -/
def tumallocFallback (st : AllocState) (size : Nat) : Nat × AllocState :=
  let r := do_alloc st (size + 16)
  (r.1 + 16 * 16, { r.2 with mem := writeW r.2.mem r.1 size })

/-- The next-fit search loop of tumalloc (lines 212-237).  The loop
condition requires curr->next to be nonnull and different from start; on
exit the heap-extension fallback runs.  Inside the body: find_prev is
evaluated, a perfect fit unlinks curr through prev->next (prev may be
NULL) and returns curr itself, a larger fit splits, and otherwise the
(dead) wrap test runs and the scan advances. -/
def tumallocLoop (st : AllocState) (start size : Nat) :
    Nat → Nat → Nat × AllocState
  | _, 0 => tumallocFallback st size
  | curr, f + 1 =>
    if readW st.mem (curr + 8) ≠ 0 ∧ readW st.mem (curr + 8) ≠ start then
      let prev := findPrev st.mem st.head curr (f + 1)
      if size = readW st.mem curr then
        let m1 := writeW st.mem (prev + 8) (readW st.mem (curr + 8))
        (curr, { st with mem := m1, next := readW m1 (curr + 8) })
      else if size < readW st.mem curr then
        let r := split st curr (size + 16)
        let st2 := remove_free_block r.2 r.1 (f + 1)
        (r.1 + 16 * 16, { st2 with mem := writeW st2.mem r.1 size })
      else
        let st1 := if readW st.mem (curr + 8) = 0 then
            { st with mem := writeW st.mem (curr + 8) st.head } else st
        tumallocLoop st1 start size (readW st1.mem (curr + 8)) f
    else tumallocFallback st size

/-- tumalloc of alloc.c.  First case: empty free list — extend the heap,
set NEXT to the (null) HEAD, write the header, and return
head + sizeof(header) under header pointer arithmetic (+256 bytes).
Second case: single-node free list — extend the heap when the request is
larger than the node, hand the node address itself out on an exact fit,
and otherwise split, remove, set NEXT to HEAD and write the header size
over the node.  Third case: next-fit scan. -/
def tumalloc (st : AllocState) (size : Nat) (fuel : Nat) : Nat × AllocState :=
  if st.head = 0 then
    let r := do_alloc st (size + 16)
    (r.1 + 16 * 16,
      { r.2 with mem := writeW r.2.mem r.1 size, next := st.head })
  else if readW st.mem (st.head + 8) = 0 then
    if size > readW st.mem st.head then
      let r := do_alloc st (size + 16)
      (r.1 + 16 * 16,
        { r.2 with mem := writeW r.2.mem r.1 size, next := st.head })
    else if size = readW st.mem st.head then
      (st.head, { st with head := 0, next := 0 })
    else
      let r := split st st.head (size + 16)
      let st2 := remove_free_block r.2 r.1 fuel
      (r.1 + 16 * 16,
        { st2 with mem := writeW st2.mem r.1 size, next := st2.head })
  else
    let st1 := if st.next = 0 then { st with next := st.head } else st
    tumallocLoop st1 st1.next size st1.next fuel

/-- memset(p, 0, n) of tucalloc: zero n bytes starting at a. -/
def memsetZ (m : Mem) : Nat → Nat → Mem
  | _, 0 => m
  | a, n + 1 => memsetZ (writeB m a 0) (a + 1) n

/-- tucalloc of alloc.c: allocate num * size bytes through tumalloc and
zero the region.  num * size is a size_t product in the C, so it wraps
modulo 2^64; the wrapped value is what both tumalloc and memset
receive. -/
def tucalloc (st : AllocState) (num size fuel : Nat) : Nat × AllocState :=
  let r := tumalloc st (num * size % 2 ^ 64) fuel
  (r.1, { r.2 with mem := memsetZ r.2.mem r.1 (num * size % 2 ^ 64) })

/-- memcpy(dst, src, n): the n bytes at dst become the n bytes read from
src; all other bytes are unchanged. -/
def memcpy (m : Mem) (dst src n : Nat) : Mem :=
  fun x => if dst ≤ x ∧ x < dst + n then m (src + (x - dst)) else m x

/-- The insertion scan of tufree (lines 301-309), including the code's
update curr_next_addr = (uintptr_t) curr inside the loop body. -/
def insertScan (m : Mem) (nw : Nat) : Nat → Nat → Nat → Nat
  | curr, _, 0 => curr
  | curr, cna, f + 1 =>
    if readW m (curr + 8) ≠ 0 ∧ cna < nw then
      insertScan m nw (readW m (curr + 8)) (readW m (curr + 8)) f
    else curr

/-- The memory after tufree's first two stores (lines 293-294):
new->size = sizeof(ptr + sizeof(header)) — which is sizeof(void * ) = 8 on
the 64-bit target, whatever the block's actual capacity — and
new->next = NULL, with new at nw = ptr - sizeof(header). -/
def tufreeMem2 (m : Mem) (nw : Nat) : Mem := writeW (writeW m nw 8) (nw + 8) 0

/-- The three-way free-list insertion of tufree (lines 296-313): start the
list, append as second element, or run the address scan and splice new in
after the node it stops at (new->next = curr->next, then
curr->next = new). -/
def tufreeLink (st : AllocState) (nw : Nat) (fuel : Nat) : AllocState :=
  if st.head = 0 then { st with mem := tufreeMem2 st.mem nw, head := nw }
  else if readW (tufreeMem2 st.mem nw) (st.head + 8) = 0 then
    { st with mem := writeW (tufreeMem2 st.mem nw) (st.head + 8) nw }
  else
    { st with mem :=
        (writeW
          (writeW (tufreeMem2 st.mem nw) (nw + 8)
            (readW (tufreeMem2 st.mem nw)
              (insertScan (tufreeMem2 st.mem nw) nw st.head
                (readW (tufreeMem2 st.mem nw) (st.head + 8)) fuel + 8)))
          (insertScan (tufreeMem2 st.mem nw) nw st.head
            (readW (tufreeMem2 st.mem nw) (st.head + 8)) fuel + 8) nw) }

/-- The self-link guard of tufree (lines 315-317): clear new->next when it
points back at new. -/
def tufreeGuard (st : AllocState) (nw : Nat) : AllocState :=
  if readW st.mem (nw + 8) = nw then
    { st with mem := writeW st.mem (nw + 8) 0 }
  else st

/-- tufree of alloc.c: reinterpret ptr - sizeof(header) as a free node,
store its (wrong, see claim C2) size and null link, insert it, guard
against a self link, and coalesce. -/
def tufree (st : AllocState) (p : Nat) (fuel : Nat) : AllocState :=
  coalesce (tufreeGuard (tufreeLink st (p - 16) fuel) (p - 16)) (p - 16) fuel

/-- turealloc of alloc.c: free the old block first, allocate
new_size + sizeof(header) bytes, read old_size out of the header field at
the address tumalloc returned, then copy onto block_ptr — which the code
sets to the original ptr — and return block_ptr. -/
def turealloc (st : AllocState) (p : Nat) (newSize fuel : Nat) :
    Nat × AllocState :=
  let st1 := tufree st p fuel
  let r := tumalloc st1 (newSize + 16) fuel
  let oldSize := readW r.2.mem r.1
  let m' := if newSize ≤ oldSize then memcpy r.2.mem p p newSize
    else memcpy r.2.mem p p oldSize
  (p, { r.2 with mem := m' })

/-! Concrete allocator states used to evaluate the code on failing inputs.
Each describes a small, well-formed heap posture reachable by the intended
semantics: headers carry the payload size of their block, free nodes carry
size and a nil-terminated next link, and the break is 16-byte aligned. -/

/-- One allocated block: header at 1000 with payload size 100, so the
payload is the 100 bytes at 1016..1115.  Free list empty. -/
def stRecSize : AllocState :=
  ⟨writeW (fun _ => 0) 1000 100, 0, 0, 4096, 100000⟩

/-- Empty free list, aligned break at 1008, plenty of address space. -/
def stHdrOff : AllocState := ⟨fun _ => 0, 0, 0, 1008, 100000⟩

/-- Empty free list with a stale nonzero next-fit cursor; the break sits
at the limit, so any sbrk growth request fails. -/
def stOom : AllocState := ⟨fun _ => 0, 0, 5, 1000, 1000⟩

/-- Single free node at 1000 of size 70 (next = null); byte 7 planted at
address 8 to make reads through the null page visible.  Break aligned. -/
def stNoSplit : AllocState :=
  ⟨writeB (writeW (writeW (fun _ => 0) 1000 70) 1008 0) 8 7,
    1000, 0, 4096, 100000⟩

/-- Two-node free list: node 1000 of size 10 linking to the tail node
2000 of size 1000 (next = null).  Cursor unset, break aligned at 4096. -/
def stTail : AllocState :=
  ⟨writeW (writeW (writeW (writeW (fun _ => 0) 1000 10) 1008 2000)
      2000 1000) 2008 0,
    1000, 0, 4096, 100000⟩

/-- Two allocated blocks, directly address-adjacent: header at 1000 with
payload size 100 (block bytes 1000..1115) and header at 1116 with payload
size 100 (block bytes 1116..1231).  Free list empty. -/
def stAdj : AllocState :=
  ⟨writeW (writeW (fun _ => 0) 1000 100) 1116 100, 0, 0, 4096, 100000⟩

/-- The state after releasing the first adjacent block of stAdj. -/
def stAdj1 : AllocState := tufree stAdj 1016 9

/-- The state after then releasing the second adjacent block. -/
def stAdj2 : AllocState := tufree stAdj1 1132 9

/-- Single free node at 1000 of size 100, free list otherwise empty. -/
def stRound : AllocState :=
  ⟨writeW (writeW (fun _ => 0) 1000 100) 1008 0, 1000, 0, 4096, 100000⟩

/-- stRound after allocating 50 bytes. -/
def stRoundA : Nat × AllocState := tumalloc stRound 50 9

/-- stRound after allocating 50 bytes and releasing the result. -/
def stRoundB : AllocState := tufree stRoundA.2 stRoundA.1 9

/-- One allocated block: header at 1000 with payload size 100, payload
first byte (address 1016) holding the value 7.  Free list empty. -/
def stRsz : AllocState :=
  ⟨writeB (writeW (fun _ => 0) 1000 100) 1016 7, 0, 0, 4096, 100000⟩

/-- stRsz after resizing the block at 1016 to 30 bytes. -/
def stRszR : Nat × AllocState := turealloc stRsz 1016 30 9

/-- Fresh state whose bytes all read 9, used for the zero-fill witness. -/
def stCal : AllocState := ⟨fun _ => 9, 0, 0, 4096, 100000⟩

/-- Fresh state whose bytes all read 9 with a large address-space limit,
so that a multi-gigabyte sbrk request still succeeds; used to evaluate
zero-allocate on an overflowing count * elementSize product. -/
def stCalBig : AllocState := ⟨fun _ => 9, 0, 0, 4096, 2 ^ 40⟩

/-- Free node at 1000 (size 50, next null) over a memory whose bytes all
start at 5; used for the payload-preservation witness of release. -/
def stFrame : AllocState :=
  ⟨writeW (writeW (fun _ => 5) 1000 50) 1008 0, 1000, 0, 4096, 100000⟩

/-! Theorems. -/

theorem memsetZ_out : ∀ n (m : Mem) a x, x < a → memsetZ m a n x = m x := by
  intro n
  induction n with
  | zero => intro m a x _; rfl
  | succ k ih =>
    intro m a x hx
    show memsetZ (writeB m a 0) (a + 1) k x = m x
    rw [ih (writeB m a 0) (a + 1) x (show x < a + 1 by omega)]
    show (if x = a then 0 else m x) = m x
    rw [if_neg (show ¬ x = a by omega)]

theorem memsetZ_zero :
    ∀ n (m : Mem) a i, i < n → memsetZ m a n (a + i) = 0 := by
  intro n
  induction n with
  | zero => intro m a i h; omega
  | succ k ih =>
    intro m a i h
    show memsetZ (writeB m a 0) (a + 1) k (a + i) = 0
    match i with
    | 0 =>
      rw [memsetZ_out k (writeB m a 0) (a + 1) (a + 0)
        (show a + 0 < a + 1 by omega)]
      show (if a + 0 = a then 0 else m (a + 0)) = 0
      rw [if_pos (show a + 0 = a by omega)]
    | j + 1 =>
      have e : a + (j + 1) = (a + 1) + j := by omega
      rw [e]
      exact ih (writeB m a 0) (a + 1) j (show j < k by omega)

theorem memsetZ_out_hi : ∀ n (m : Mem) a x, a + n ≤ x →
    memsetZ m a n x = m x := by
  intro n
  induction n with
  | zero => intro m a x _; rfl
  | succ k ih =>
    intro m a x hx
    show memsetZ (writeB m a 0) (a + 1) k x = m x
    rw [ih (writeB m a 0) (a + 1) x (show a + 1 + k ≤ x by omega)]
    show (if x = a then 0 else m x) = m x
    rw [if_neg (show ¬ x = a by omega)]

/-- Claim C2 (code bug).  release is supposed to record the block's
allocatable capacity in the free node's size field.  Releasing the block
at 1016, whose header at 1000 records a payload size of 100, instead
records 8 — the value of sizeof(ptr + sizeof(header)) in tufree line 293,
which is the size of a pointer, not the block's capacity.  The header's
100 was available at readW stRecSize.mem 1000 and is ignored. -/
theorem tufree_records_pointer_size :
    readW stRecSize.mem 1000 = 100 ∧
    (tufree stRecSize 1016 9).head = 1000 ∧
    readW (tufree stRecSize 1016 9).mem 1000 = 8 := by decide

/-- Claim C3 (code bug).  On the empty-free-list path, tumalloc writes the
header at the break (1008) but returns head + sizeof(header) computed with
header pointer arithmetic, i.e. address 1008 + 256 = 1264, not
1008 + 16 = 1024.  The header is therefore 256 bytes before the returned
pointer, not one header size, and tufree's reconstruction ptr - 16 of the
same code base would look for it at 1248. -/
theorem tumalloc_header_not_adjacent :
    (tumalloc stHdrOff 20 9).1 = 1264 ∧
    readW (tumalloc stHdrOff 20 9).2.mem 1008 = 20 ∧
    1008 + 16 ≠ 1264 := by decide

/-- Claim C4 (code bug).  With the break at the limit every sbrk request
fails and do_alloc returns NULL.  tumalloc ignores that result: it stores
the requested size through the null header pointer (the size 50 appears in
the word at address 0), overwrites the next-fit cursor (5 becomes 0), and
returns NULL + sizeof(header) * sizeof(header) = 256 — a non-null garbage
pointer instead of a distinguishable failure value. -/
theorem tumalloc_oom_garbage :
    stOom.next = 5 ∧ readW stOom.mem 0 = 0 ∧
    (tumalloc stOom 50 9).1 = 256 ∧ (tumalloc stOom 50 9).1 ≠ 0 ∧
    readW (tumalloc stOom 50 9).2.mem 0 = 50 ∧
    (tumalloc stOom 50 9).2.next = 0 := by decide

/-- Claim C6 (code bug).  The single free node at 1000 has size 70, large
enough for the 60-byte request but too small to split (70 < 60+16+16), so
the claim requires the entire node to be handed out.  Instead split
returns NULL, and tumalloc dereferences it: the node stays at the list
head, remove_free_block matches the tail's null next against the NULL
block and stores the word read from address 8 (the planted 7) into the
node's next link, the request size is written to address 0, and the
caller receives the garbage pointer NULL + 256. -/
theorem tumalloc_unsplittable_corrupts :
    readW stNoSplit.mem 1000 = 70 ∧
    (tumalloc stNoSplit 60 9).1 = 256 ∧
    (tumalloc stNoSplit 60 9).2.head = 1000 ∧
    readW (tumalloc stNoSplit 60 9).2.mem 1008 = 7 ∧
    readW (tumalloc stNoSplit 60 9).2.mem 0 = 60 := by decide

/-- Claim C7 (code bug).  The free list is 1000 (size 10) then the tail
2000 (size 1000).  The tail easily satisfies the 50-byte request
(1000 ≥ 50 + 16), so a scan wrapping once from the cursor would hand it
out.  But the loop condition tests curr->next, so the loop exits as soon
as curr reaches the tail without ever examining it, the wrap branch is
unreachable, and tumalloc extends the heap (the break grows from 4096 to
4178 and a fresh pointer past it is returned). -/
theorem tumalloc_never_wraps :
    readW stTail.mem 2000 = 1000 ∧
    (tumalloc stTail 50 9).1 = 4352 ∧
    (tumalloc stTail 50 9).2.brk = 4178 ∧ stTail.brk = 4096 := by decide

/-- Claim C8 (code bug).  The two blocks of stAdj tile 1000..1231 with no
gap: releasing both must leave one merged node.  After both releases the
free list still holds the two nodes 1000 and 1116, because each node's
size field was recorded as 8 (claim C2's bug), so the adjacency test
prev + size + 16 computes 1024 instead of 1116 and the coalescer never
sees the blocks as neighbors. -/
theorem tufree_adjacent_unmerged :
    readW stAdj.mem 1000 = 100 ∧ 1000 + 16 + 100 = 1116 ∧
    chain stAdj2.mem stAdj2.head 9 = [1000, 1116] ∧
    readW stAdj2.mem 1000 = 8 ∧ readW stAdj2.mem 1116 = 8 := by decide

/-- Claim C9 (code bug).  Before the pair of calls the free list owns the
single range described by node 1000 with size 100.  Allocating 50 bytes
carves the node, and releasing the returned pointer (1256, itself
misplaced by claim C3's bug) inserts a node at 1240 with size 8.  The
resulting list [1082, 1240] with sizes 18 and 8 owns different address
ranges than the original [1000] with size 100, so the round trip is not
shape-preserving. -/
theorem roundtrip_changes_free_list :
    chain stRound.mem stRound.head 9 = [1000] ∧
    readW stRound.mem 1000 = 100 ∧
    chain stRoundB.mem stRoundB.head 9 = [1082, 1240] ∧
    readW stRoundB.mem 1082 = 18 ∧ readW stRoundB.mem 1240 = 8 := by decide

/-- Claim C1 (code bug).  Resizing the block at 1016 (payload size 100,
first payload byte 7) to 30 bytes: tufree links the block's node 1000 into
the free list, tumalloc falls back to heap extension and returns the fresh
pointer 4352, but turealloc hands the caller back the original pointer
1016 while the node 1000 remains on the free list — so the very next
8-byte request returns 1000, whose block overlaps the region the resize
caller was given.  The fresh 30-byte region never receives the original
contents (its first byte is 0, the original byte was 7). -/
theorem turealloc_returns_freed_pointer :
    stRsz.mem 1016 = 7 ∧
    stRszR.1 = 1016 ∧
    (tumalloc (tufree stRsz 1016 9) 46 9).1 = 4352 ∧
    stRszR.2.head = 1000 ∧
    chain stRszR.2.mem stRszR.2.head 5 = [1000] ∧
    stRszR.2.mem 4352 = 0 ∧
    (tumalloc stRszR.2 8 9).1 = 1000 := by decide

/-- Bytes at or past the wrapped count are untouched by tucalloc's
zero-fill: they still read whatever tumalloc's state holds there. -/
theorem tucalloc_out (st : AllocState) (num sz fuel i : Nat)
    (h : num * sz % 2 ^ 64 ≤ i) :
    (tucalloc st num sz fuel).2.mem ((tucalloc st num sz fuel).1 + i) =
    (tumalloc st (num * sz % 2 ^ 64) fuel).2.mem
      ((tumalloc st (num * sz % 2 ^ 64) fuel).1 + i) := by
  show memsetZ (tumalloc st (num * sz % 2 ^ 64) fuel).2.mem
    (tumalloc st (num * sz % 2 ^ 64) fuel).1 (num * sz % 2 ^ 64)
    ((tumalloc st (num * sz % 2 ^ 64) fuel).1 + i) = _
  exact memsetZ_out_hi _ _ _ _
    (Nat.add_le_add_left h (tumalloc st (num * sz % 2 ^ 64) fuel).1)

/-- Counterexample for claim C5 as stated.  The C computes num * size in
size_t, wrapping modulo 2^64.  For count 2^32 and element size 2^32 + 1
the product wraps to 2^32, the allocation of those 2^32 bytes succeeds
(large address-space limit), and only 2^32 bytes are zeroed: byte index
2^32 - which lies inside the first count * elementSize bytes the claim
promises to be zero - still reads the original 9.  This is the classic
unchecked calloc overflow. -/
theorem tucalloc_overflow_not_zeroed :
    2 ^ 32 < 2 ^ 32 * (2 ^ 32 + 1) ∧
    (tucalloc stCalBig (2 ^ 32) (2 ^ 32 + 1) 9).2.mem
      ((tucalloc stCalBig (2 ^ 32) (2 ^ 32 + 1) 9).1 + 2 ^ 32) ≠ 0 := by
  constructor
  · decide
  · have e := tucalloc_out stCalBig (2 ^ 32) (2 ^ 32 + 1) 9 (2 ^ 32)
      (by decide)
    rw [e]
    decide

/-- Claim C5 (corrected).  num * size is a wrapping size_t product in the
C, so tucalloc requests num * size mod 2^64 bytes from tumalloc and
zero-fills exactly that many bytes at whatever pointer tumalloc produced.
Whenever the product does not overflow, the region handed to the caller
reads as zero on its first num * size bytes; this holds on every tumalloc
path, and tucalloc adds no handling of its own, so an allocation failure
surfaces through tucalloc exactly as tumalloc surfaces it.  For an
overflowing product only the wrapped count is zeroed (see the
counterexample above). -/
theorem tucalloc_zero_fill (st : AllocState) (num sz fuel i : Nat)
    (hnk : num * sz < 2 ^ 64) (h : i < num * sz) :
    (tucalloc st num sz fuel).1 = (tumalloc st (num * sz % 2 ^ 64) fuel).1 ∧
    (tucalloc st num sz fuel).2.mem ((tucalloc st num sz fuel).1 + i) = 0 := by
  refine ⟨rfl, ?_⟩
  have hmod : num * sz % 2 ^ 64 = num * sz := Nat.mod_eq_of_lt hnk
  show memsetZ (tumalloc st (num * sz % 2 ^ 64) fuel).2.mem
    (tumalloc st (num * sz % 2 ^ 64) fuel).1 (num * sz % 2 ^ 64)
    ((tumalloc st (num * sz % 2 ^ 64) fuel).1 + i) = 0
  rw [hmod]
  exact memsetZ_zero (num * sz) _ _ i h

/-- Witness for claim C5: a concrete zeroed read through tucalloc on a
state whose bytes all start at 9, with a non-overflowing product. -/
theorem tucalloc_zero_fill_witness :
    2 * 3 < 2 ^ 64 ∧ 4 < 2 * 3 ∧
    (tucalloc stCal 2 3 5).2.mem ((tucalloc stCal 2 3 5).1 + 4) = 0 :=
  ⟨by norm_num, by norm_num,
    (tucalloc_zero_fill stCal 2 3 5 4 (by norm_num) (by norm_num)).2⟩

/-! Word-level helper lemmas for the frame proof of tufree. -/

theorem writeB_at (m : Mem) (a b : Nat) : writeB m a b a = b := by
  simp [writeB]

theorem writeB_ne (m : Mem) (a b x : Nat) (h : x ≠ a) :
    writeB m a b x = m x := by
  simp [writeB, h]

theorem writeW_out (m : Mem) (a v x : Nat) (h : x < a ∨ a + 8 ≤ x) :
    writeW m a v x = m x := by
  unfold writeW
  rw [writeB_ne _ _ _ _ (show x ≠ a + 7 by omega),
    writeB_ne _ _ _ _ (show x ≠ a + 6 by omega),
    writeB_ne _ _ _ _ (show x ≠ a + 5 by omega),
    writeB_ne _ _ _ _ (show x ≠ a + 4 by omega),
    writeB_ne _ _ _ _ (show x ≠ a + 3 by omega),
    writeB_ne _ _ _ _ (show x ≠ a + 2 by omega),
    writeB_ne _ _ _ _ (show x ≠ a + 1 by omega),
    writeB_ne _ _ _ _ (show x ≠ a by omega)]

theorem writeW_at0 (m : Mem) (a v : Nat) : writeW m a v a = byteOf v 0 := by
  unfold writeW
  rw [writeB_ne _ _ _ _ (show a ≠ a + 7 by omega),
    writeB_ne _ _ _ _ (show a ≠ a + 6 by omega),
    writeB_ne _ _ _ _ (show a ≠ a + 5 by omega),
    writeB_ne _ _ _ _ (show a ≠ a + 4 by omega),
    writeB_ne _ _ _ _ (show a ≠ a + 3 by omega),
    writeB_ne _ _ _ _ (show a ≠ a + 2 by omega),
    writeB_ne _ _ _ _ (show a ≠ a + 1 by omega), writeB_at]

theorem writeW_at1 (m : Mem) (a v : Nat) :
    writeW m a v (a + 1) = byteOf v 1 := by
  unfold writeW
  rw [writeB_ne _ _ _ _ (show a + 1 ≠ a + 7 by omega),
    writeB_ne _ _ _ _ (show a + 1 ≠ a + 6 by omega),
    writeB_ne _ _ _ _ (show a + 1 ≠ a + 5 by omega),
    writeB_ne _ _ _ _ (show a + 1 ≠ a + 4 by omega),
    writeB_ne _ _ _ _ (show a + 1 ≠ a + 3 by omega),
    writeB_ne _ _ _ _ (show a + 1 ≠ a + 2 by omega), writeB_at]

theorem writeW_at2 (m : Mem) (a v : Nat) :
    writeW m a v (a + 2) = byteOf v 2 := by
  unfold writeW
  rw [writeB_ne _ _ _ _ (show a + 2 ≠ a + 7 by omega),
    writeB_ne _ _ _ _ (show a + 2 ≠ a + 6 by omega),
    writeB_ne _ _ _ _ (show a + 2 ≠ a + 5 by omega),
    writeB_ne _ _ _ _ (show a + 2 ≠ a + 4 by omega),
    writeB_ne _ _ _ _ (show a + 2 ≠ a + 3 by omega), writeB_at]

theorem writeW_at3 (m : Mem) (a v : Nat) :
    writeW m a v (a + 3) = byteOf v 3 := by
  unfold writeW
  rw [writeB_ne _ _ _ _ (show a + 3 ≠ a + 7 by omega),
    writeB_ne _ _ _ _ (show a + 3 ≠ a + 6 by omega),
    writeB_ne _ _ _ _ (show a + 3 ≠ a + 5 by omega),
    writeB_ne _ _ _ _ (show a + 3 ≠ a + 4 by omega), writeB_at]

theorem writeW_at4 (m : Mem) (a v : Nat) :
    writeW m a v (a + 4) = byteOf v 4 := by
  unfold writeW
  rw [writeB_ne _ _ _ _ (show a + 4 ≠ a + 7 by omega),
    writeB_ne _ _ _ _ (show a + 4 ≠ a + 6 by omega),
    writeB_ne _ _ _ _ (show a + 4 ≠ a + 5 by omega), writeB_at]

theorem writeW_at5 (m : Mem) (a v : Nat) :
    writeW m a v (a + 5) = byteOf v 5 := by
  unfold writeW
  rw [writeB_ne _ _ _ _ (show a + 5 ≠ a + 7 by omega),
    writeB_ne _ _ _ _ (show a + 5 ≠ a + 6 by omega), writeB_at]

theorem writeW_at6 (m : Mem) (a v : Nat) :
    writeW m a v (a + 6) = byteOf v 6 := by
  unfold writeW
  rw [writeB_ne _ _ _ _ (show a + 6 ≠ a + 7 by omega), writeB_at]

theorem writeW_at7 (m : Mem) (a v : Nat) :
    writeW m a v (a + 7) = byteOf v 7 := by
  unfold writeW
  rw [writeB_at]

theorem byte_digits (v : Nat) (h : v < 2 ^ 64) :
    byteOf v 0 + 256 * byteOf v 1 + 256 ^ 2 * byteOf v 2 +
      256 ^ 3 * byteOf v 3 + 256 ^ 4 * byteOf v 4 + 256 ^ 5 * byteOf v 5 +
      256 ^ 6 * byteOf v 6 + 256 ^ 7 * byteOf v 7 = v := by
  have e : (2 : Nat) ^ 64 = 18446744073709551616 := by norm_num
  rw [e] at h
  unfold byteOf
  rw [show (256 : Nat) ^ 0 = 1 by norm_num,
    show (256 : Nat) ^ 1 = 256 by norm_num,
    show (256 : Nat) ^ 2 = 65536 by norm_num,
    show (256 : Nat) ^ 3 = 16777216 by norm_num,
    show (256 : Nat) ^ 4 = 4294967296 by norm_num,
    show (256 : Nat) ^ 5 = 1099511627776 by norm_num,
    show (256 : Nat) ^ 6 = 281474976710656 by norm_num,
    show (256 : Nat) ^ 7 = 72057594037927936 by norm_num, Nat.div_one]
  omega

theorem readW_writeW (m : Mem) (a v : Nat) (h : v < 2 ^ 64) :
    readW (writeW m a v) a = v := by
  unfold readW
  rw [writeW_at0, writeW_at1, writeW_at2, writeW_at3, writeW_at4,
    writeW_at5, writeW_at6, writeW_at7]
  exact byte_digits v h

theorem readW_out (m : Mem) (a v b : Nat) (h : b + 8 ≤ a ∨ a + 8 ≤ b) :
    readW (writeW m a v) b = readW m b := by
  unfold readW
  rw [writeW_out _ _ _ _ (by omega), writeW_out _ _ _ _ (by omega),
    writeW_out _ _ _ _ (by omega), writeW_out _ _ _ _ (by omega),
    writeW_out _ _ _ _ (by omega), writeW_out _ _ _ _ (by omega),
    writeW_out _ _ _ _ (by omega), writeW_out _ _ _ _ (by omega)]

theorem readW_congr (m m2 : Mem) (a : Nat)
    (h : ∀ y, a ≤ y → y < a + 8 → m2 y = m y) : readW m2 a = readW m a := by
  unfold readW
  rw [h a (by omega) (by omega), h (a + 1) (by omega) (by omega),
    h (a + 2) (by omega) (by omega), h (a + 3) (by omega) (by omega),
    h (a + 4) (by omega) (by omega), h (a + 5) (by omega) (by omega),
    h (a + 6) (by omega) (by omega), h (a + 7) (by omega) (by omega)]

theorem byteOf_lt (v i : Nat) : byteOf v i < 256 :=
  Nat.mod_lt _ (by norm_num)

theorem byteMem_writeB (m : Mem) (a b : Nat) (h : ByteMem m) (hb : b < 256) :
    ByteMem (writeB m a b) := by
  intro x
  unfold writeB
  by_cases hx : x = a
  · rw [if_pos hx]; exact hb
  · rw [if_neg hx]; exact h x

theorem byteMem_writeW (m : Mem) (a v : Nat) (h : ByteMem m) :
    ByteMem (writeW m a v) := by
  unfold writeW
  exact byteMem_writeB _ _ _ (byteMem_writeB _ _ _ (byteMem_writeB _ _ _
    (byteMem_writeB _ _ _ (byteMem_writeB _ _ _ (byteMem_writeB _ _ _
    (byteMem_writeB _ _ _ (byteMem_writeB _ _ _ h (byteOf_lt v 0))
    (byteOf_lt v 1)) (byteOf_lt v 2)) (byteOf_lt v 3)) (byteOf_lt v 4))
    (byteOf_lt v 5)) (byteOf_lt v 6)) (byteOf_lt v 7)

theorem byteMem_readW_lt (m : Mem) (a : Nat) (h : ByteMem m) :
    readW m a < 2 ^ 64 := by
  have e : (2 : Nat) ^ 64 = 18446744073709551616 := by norm_num
  rw [e]
  unfold readW
  rw [show (256 : Nat) ^ 2 = 65536 by norm_num,
    show (256 : Nat) ^ 3 = 16777216 by norm_num,
    show (256 : Nat) ^ 4 = 4294967296 by norm_num,
    show (256 : Nat) ^ 5 = 1099511627776 by norm_num,
    show (256 : Nat) ^ 6 = 281474976710656 by norm_num,
    show (256 : Nat) ^ 7 = 72057594037927936 by norm_num]
  have h0 := h a
  have h1 := h (a + 1)
  have h2 := h (a + 2)
  have h3 := h (a + 3)
  have h4 := h (a + 4)
  have h5 := h (a + 5)
  have h6 := h (a + 6)
  have h7 := h (a + 7)
  omega

/-! Free-list traversal lemmas. -/

theorem chain_nil (m : Mem) (f : Nat) : chain m 0 f = [] := by
  cases f with
  | zero => rfl
  | succ k => simp [chain]

theorem chain_cons (m : Mem) (h : Nat) (f : Nat) (hh : h ≠ 0) :
    chain m h (f + 1) = h :: chain m (readW m (h + 8)) f := by
  simp [chain, hh]

theorem chain_congr : ∀ (f : Nat) (m m2 : Mem) (h : Nat),
    (∀ a ∈ chain m h f, ∀ y, a + 8 ≤ y → y < a + 16 → m2 y = m y) →
    chain m2 h f = chain m h f := by
  intro f
  induction f with
  | zero => intro m m2 h _; rfl
  | succ k ih =>
    intro m m2 h H
    by_cases hh : h = 0
    · subst hh; rw [chain_nil, chain_nil]
    · have hmem : h ∈ chain m h (k + 1) := by
        rw [chain_cons m h k hh]; exact List.mem_cons_self _ _
      have hr : readW m2 (h + 8) = readW m (h + 8) :=
        readW_congr m m2 (h + 8)
          (fun y hy1 hy2 => H h hmem y (by omega) (by omega))
      rw [chain_cons m h k hh, chain_cons m2 h k hh, hr]
      congr 1
      exact ih m m2 (readW m (h + 8)) (fun a ha y hy1 hy2 =>
        H a (by rw [chain_cons m h k hh]; exact List.mem_cons_of_mem _ ha)
          y hy1 hy2)

theorem follow_congr : ∀ (f : Nat) (m m2 : Mem) (h : Nat),
    (∀ a ∈ chain m h f, ∀ y, a + 8 ≤ y → y < a + 16 → m2 y = m y) →
    follow m2 h f = follow m h f := by
  intro f
  induction f with
  | zero => intro m m2 h _; rfl
  | succ k ih =>
    intro m m2 h H
    by_cases hh : h = 0
    · subst hh
      show (if (0 : Nat) = 0 then 0 else _) = if (0 : Nat) = 0 then 0 else _
      rw [if_pos rfl, if_pos rfl]
    · have hmem : h ∈ chain m h (k + 1) := by
        rw [chain_cons m h k hh]; exact List.mem_cons_self _ _
      have hr : readW m2 (h + 8) = readW m (h + 8) :=
        readW_congr m m2 (h + 8)
          (fun y hy1 hy2 => H h hmem y (by omega) (by omega))
      show (if h = 0 then 0 else follow m2 (readW m2 (h + 8)) k) =
        if h = 0 then 0 else follow m (readW m (h + 8)) k
      rw [if_neg hh, if_neg hh, hr]
      exact ih m m2 (readW m (h + 8)) (fun a ha y hy1 hy2 =>
        H a (by rw [chain_cons m h k hh]; exact List.mem_cons_of_mem _ ha)
          y hy1 hy2)

theorem chain_next : ∀ (f : Nat) (m : Mem) (h a : Nat),
    follow m h f = 0 → a ∈ chain m h f →
    readW m (a + 8) = 0 ∨ readW m (a + 8) ∈ chain m h f := by
  intro f
  induction f with
  | zero => intro m h a _ ha; rw [show chain m h 0 = [] from rfl] at ha
            exact absurd ha (List.not_mem_nil a)
  | succ k ih =>
    intro m h a hT ha
    by_cases hh : h = 0
    · rw [hh, chain_nil] at ha; exact absurd ha (List.not_mem_nil a)
    · have hT' : follow m (readW m (h + 8)) k = 0 := by
        have e : follow m h (k + 1) =
            if h = 0 then 0 else follow m (readW m (h + 8)) k := rfl
        rw [e, if_neg hh] at hT
        exact hT
      rw [chain_cons m h k hh] at ha
      rcases List.mem_cons.mp ha with rfl | hatail
      · by_cases hz : readW m (a + 8) = 0
        · exact Or.inl hz
        · right
          rw [chain_cons m a k hh]
          refine List.mem_cons_of_mem _ ?_
          cases k with
          | zero => exact absurd (show readW m (a + 8) = 0 from hT') hz
          | succ k' =>
            rw [chain_cons m _ k' hz]
            exact List.mem_cons_self _ _
      · rcases ih m (readW m (h + 8)) a hT' hatail with h0 | hmem
        · exact Or.inl h0
        · right
          rw [chain_cons m h k hh]
          exact List.mem_cons_of_mem _ hmem

theorem chain_closed : ∀ (f : Nat) (m : Mem) (h : Nat) (S : List Nat),
    (h = 0 ∨ h ∈ S) →
    (∀ a ∈ S, readW m (a + 8) = 0 ∨ readW m (a + 8) ∈ S) →
    ∀ a ∈ chain m h f, a ∈ S := by
  intro f
  induction f with
  | zero => intro m h S _ _ a ha
            exact absurd ha (List.not_mem_nil a)
  | succ k ih =>
    intro m h S h0 hcl a ha
    by_cases hh : h = 0
    · rw [hh, chain_nil] at ha; exact absurd ha (List.not_mem_nil a)
    · have hhS : h ∈ S := h0.resolve_left hh
      rw [chain_cons m h k hh] at ha
      rcases List.mem_cons.mp ha with rfl | hatail
      · exact hhS
      · exact ih m (readW m (h + 8)) S (hcl h hhS) hcl a hatail

theorem findPrev_mem : ∀ (f : Nat) (m : Mem) (h blk : Nat),
    findPrev m h blk f = 0 ∨ findPrev m h blk f ∈ chain m h f := by
  intro f
  induction f with
  | zero => intro m h blk; exact Or.inl rfl
  | succ k ih =>
    intro m h blk
    by_cases hh : h = 0
    · left
      show (if h = 0 then 0 else _) = 0
      rw [if_pos hh]
    · by_cases hc : h + readW m h + 16 = blk
      · right
        show (if h = 0 then 0 else if h + readW m h + 16 = blk then h
          else findPrev m (readW m (h + 8)) blk k) ∈ chain m h (k + 1)
        rw [if_neg hh, if_pos hc, chain_cons m h k hh]
        exact List.mem_cons_self _ _
      · have e : findPrev m h blk (k + 1) =
            findPrev m (readW m (h + 8)) blk k := by
          show (if h = 0 then 0 else if h + readW m h + 16 = blk then h
            else findPrev m (readW m (h + 8)) blk k) = _
          rw [if_neg hh, if_neg hc]
        rw [e]
        rcases ih m (readW m (h + 8)) blk with h0 | hmem
        · exact Or.inl h0
        · right
          rw [chain_cons m h k hh]
          exact List.mem_cons_of_mem _ hmem

theorem findNextGo_mem : ∀ (f : Nat) (m : Mem) (e h : Nat),
    findNextGo m e h f = 0 ∨ findNextGo m e h f ∈ chain m h f := by
  intro f
  induction f with
  | zero => intro m e h; exact Or.inl rfl
  | succ k ih =>
    intro m e h
    by_cases hh : h = 0
    · left
      show (if h = 0 then 0 else _) = 0
      rw [if_pos hh]
    · by_cases hc : h = e
      · right
        show (if h = 0 then 0 else if h = e then h
          else findNextGo m e (readW m (h + 8)) k) ∈ chain m h (k + 1)
        rw [if_neg hh, if_pos hc, chain_cons m h k hh]
        exact List.mem_cons_self _ _
      · have he : findNextGo m e h (k + 1) =
            findNextGo m e (readW m (h + 8)) k := by
          show (if h = 0 then 0 else if h = e then h
            else findNextGo m e (readW m (h + 8)) k) = _
          rw [if_neg hh, if_neg hc]
        rw [he]
        rcases ih m e (readW m (h + 8)) with h0 | hmem
        · exact Or.inl h0
        · right
          rw [chain_cons m h k hh]
          exact List.mem_cons_of_mem _ hmem

theorem insertScan_mem : ∀ (f : Nat) (m : Mem) (nw h cna : Nat), h ≠ 0 →
    follow m h f = 0 → insertScan m nw h cna f ∈ chain m h f := by
  intro f
  induction f with
  | zero => intro m nw h cna hh hT
            exact absurd (show h = 0 from hT) hh
  | succ k ih =>
    intro m nw h cna hh hT
    have hT' : follow m (readW m (h + 8)) k = 0 := by
      have e : follow m h (k + 1) =
          if h = 0 then 0 else follow m (readW m (h + 8)) k := rfl
      rw [e, if_neg hh] at hT
      exact hT
    by_cases hc : readW m (h + 8) ≠ 0 ∧ cna < nw
    · have e : insertScan m nw h cna (k + 1) =
          insertScan m nw (readW m (h + 8)) (readW m (h + 8)) k := by
        show (if readW m (h + 8) ≠ 0 ∧ cna < nw then
          insertScan m nw (readW m (h + 8)) (readW m (h + 8)) k else h) = _
        rw [if_pos hc]
      rw [e, chain_cons m h k hh]
      exact List.mem_cons_of_mem _
        (ih m nw (readW m (h + 8)) (readW m (h + 8)) hc.1 hT')
    · have e : insertScan m nw h cna (k + 1) = h := by
        show (if readW m (h + 8) ≠ 0 ∧ cna < nw then
          insertScan m nw (readW m (h + 8)) (readW m (h + 8)) k else h) = _
        rw [if_neg hc]
      rw [e, chain_cons m h k hh]
      exact List.mem_cons_self _ _

/-! Frame lemmas for the coalescer. -/

theorem coalesceStep1_snd (m : Mem) (prev blk : Nat) :
    (coalesceStep1 m prev blk).2 = blk ∨
    ((coalesceStep1 m prev blk).2 = prev ∧ prev ≠ 0) := by
  unfold coalesceStep1
  by_cases hc : prev ≠ 0 ∧ prev + readW m prev + 16 = blk
  · rw [if_pos hc]; exact Or.inr ⟨rfl, hc.1⟩
  · rw [if_neg hc]; exact Or.inl rfl

theorem coalesceStep1_fst (m : Mem) (prev blk x : Nat)
    (hp : prev ≠ 0 → (x < prev ∨ prev + 16 ≤ x)) :
    (coalesceStep1 m prev blk).1 x = m x := by
  unfold coalesceStep1
  by_cases hc : prev ≠ 0 ∧ prev + readW m prev + 16 = blk
  · rw [if_pos hc]
    have hx := hp hc.1
    show (if readW (writeW m prev (readW m prev + readW m blk + 16))
        (prev + 8) = blk then
      writeW (writeW m prev (readW m prev + readW m blk + 16)) (prev + 8)
        (readW (writeW m prev (readW m prev + readW m blk + 16)) (blk + 8))
    else writeW m prev (readW m prev + readW m blk + 16)) x = m x
    by_cases h2 : readW (writeW m prev (readW m prev + readW m blk + 16))
        (prev + 8) = blk
    · rw [if_pos h2, writeW_out _ _ _ _ (by omega),
        writeW_out _ _ _ _ (by omega)]
    · rw [if_neg h2, writeW_out _ _ _ _ (by omega)]
  · rw [if_neg hc]

theorem coalesceStep2_out (m : Mem) (blk nxt x : Nat)
    (hb : x < blk ∨ blk + 16 ≤ x) : coalesceStep2 m blk nxt x = m x := by
  unfold coalesceStep2
  by_cases hc : nxt ≠ 0 ∧ blk + readW m blk + 16 = nxt
  · rw [if_pos hc, writeW_out _ _ _ _ (by omega),
      writeW_out _ _ _ _ (by omega)]
  · rw [if_neg hc]

theorem coalesce_frame (st2 : AllocState) (blk fuel p sz x : Nat)
    (S : List Nat)
    (hhead : st2.head = 0 ∨ st2.head ∈ S)
    (hcl : ∀ a ∈ S, readW st2.mem (a + 8) = 0 ∨ readW st2.mem (a + 8) ∈ S)
    (hS : ∀ a ∈ S, a + 16 ≤ p ∨ p + sz ≤ a)
    (hblk : blk + 16 ≤ p ∨ p + sz ≤ blk)
    (hx1 : p ≤ x) (hx2 : x < p + sz) :
    (coalesce st2 blk fuel).mem x = st2.mem x := by
  unfold coalesce
  by_cases hb0 : blk = 0
  · rw [if_pos hb0]
  · rw [if_neg hb0]
    show coalesceStep2
      (coalesceStep1 st2.mem (findPrev st2.mem st2.head blk fuel) blk).1
      (coalesceStep1 st2.mem (findPrev st2.mem st2.head blk fuel) blk).2
      (findNext st2.mem st2.head blk fuel) x = st2.mem x
    have hprevS : findPrev st2.mem st2.head blk fuel = 0 ∨
        findPrev st2.mem st2.head blk fuel ∈ S := by
      rcases findPrev_mem fuel st2.mem st2.head blk with h0 | hmem
      · exact Or.inl h0
      · exact Or.inr (chain_closed fuel st2.mem st2.head S hhead hcl _ hmem)
    have hpavoid : findPrev st2.mem st2.head blk fuel ≠ 0 →
        (x < findPrev st2.mem st2.head blk fuel ∨
          findPrev st2.mem st2.head blk fuel + 16 ≤ x) := by
      intro hne
      rcases hprevS with h0 | hmem
      · exact absurd h0 hne
      · have := hS _ hmem
        omega
    have hsnd := coalesceStep1_snd st2.mem
      (findPrev st2.mem st2.head blk fuel) blk
    have hb1 : x < (coalesceStep1 st2.mem
        (findPrev st2.mem st2.head blk fuel) blk).2 ∨
        (coalesceStep1 st2.mem (findPrev st2.mem st2.head blk fuel) blk).2 +
          16 ≤ x := by
      rcases hsnd with he | ⟨he, hne⟩
      · rw [he]; omega
      · rw [he]; exact hpavoid hne
    rw [coalesceStep2_out _ _ _ _ hb1]
    exact coalesceStep1_fst _ _ _ _ hpavoid

theorem head_mem_chain (m : Mem) (h f : Nat) (hh : h ≠ 0)
    (hT : follow m h f = 0) : h ∈ chain m h f := by
  cases f with
  | zero => exact absurd (show h = 0 from hT) hh
  | succ k => rw [chain_cons m h k hh]; exact List.mem_cons_self _ _

theorem tufreeGuard_of_ne (st2 : AllocState) (nw : Nat)
    (h : readW st2.mem (nw + 8) ≠ nw) : tufreeGuard st2 nw = st2 := by
  unfold tufreeGuard
  rw [if_neg h]

/-- Claim C10 (confirmed).  Releasing a block whose payload is the sz
bytes at p (header at p - 16) leaves every payload byte unchanged: the
free-list bookkeeping of tufree, including the insertion scan, the
self-link guard and the coalescing pass, writes only into the 16-byte
node records — the one at p - 16 and those of the other free-list nodes —
and never into the payload p..p+sz-1, provided the state is well formed:
memory is byte-valued, the free list is nil-terminated within the fuel,
its node records are disjoint from the released block and from each
other, and all addresses fit the 64-bit machine. -/
theorem tufree_preserves_payload (st : AllocState) (p sz fuel : Nat)
    (hbytes : ByteMem st.mem)
    (hp : 32 ≤ p) (hbound : p + sz < 2 ^ 64)
    (hterm : follow st.mem st.head fuel = 0)
    (hdisj : ∀ a ∈ chain st.mem st.head fuel,
      a + 16 ≤ p - 16 ∨ p + sz ≤ a)
    (hsep : ∀ a ∈ chain st.mem st.head fuel,
      ∀ b ∈ chain st.mem st.head fuel, a ≠ b → a + 16 ≤ b ∨ b + 16 ≤ a)
    (x : Nat) (hx1 : p ≤ x) (hx2 : x < p + sz) :
    (tufree st p fuel).mem x = st.mem x := by
  obtain ⟨q, rfl⟩ : ∃ q, p = q + 16 := ⟨p - 16, by omega⟩
  have h64 : (2 : Nat) ^ 64 = 18446744073709551616 := by norm_num
  rw [h64] at hbound
  simp only [Nat.add_sub_cancel] at hdisj ⊢
  unfold tufree
  simp only [Nat.add_sub_cancel]
  have hq : 16 ≤ q := by omega
  have hAv : ∀ a ∈ chain st.mem st.head fuel,
      a + 16 ≤ q ∨ q + 16 + sz ≤ a := by
    intro a ha
    have := hdisj a ha
    omega
  have hm2f : ∀ y, y < q ∨ q + 16 ≤ y → tufreeMem2 st.mem q y = st.mem y := by
    intro y hy
    unfold tufreeMem2
    rw [writeW_out _ _ _ _ (by omega), writeW_out _ _ _ _ (by omega)]
  have hagree : ∀ a ∈ chain st.mem st.head fuel, ∀ y, a + 8 ≤ y →
      y < a + 16 → tufreeMem2 st.mem q y = st.mem y := by
    intro a ha y h1 h2
    exact hm2f y (by have := hAv a ha; omega)
  have hcheq : chain (tufreeMem2 st.mem q) st.head fuel =
      chain st.mem st.head fuel :=
    chain_congr fuel st.mem _ st.head hagree
  have hfol : follow (tufreeMem2 st.mem q) st.head fuel = 0 := by
    rw [follow_congr fuel st.mem _ st.head hagree]
    exact hterm
  have hb2 : ByteMem (tufreeMem2 st.mem q) :=
    byteMem_writeW _ _ _ (byteMem_writeW _ _ _ hbytes)
  have hnwnext : readW (tufreeMem2 st.mem q) (q + 8) = 0 := by
    unfold tufreeMem2
    exact readW_writeW _ _ _ (by rw [h64]; omega)
  have hreadm2 : ∀ a ∈ chain st.mem st.head fuel,
      readW (tufreeMem2 st.mem q) (a + 8) = readW st.mem (a + 8) := by
    intro a ha
    have h1 := hAv a ha
    unfold tufreeMem2
    rw [readW_out _ _ _ _ (by omega), readW_out _ _ _ _ (by omega)]
  have hSavoid : ∀ a ∈ q :: chain st.mem st.head fuel,
      a + 16 ≤ q + 16 ∨ q + 16 + sz ≤ a := by
    intro a ha
    rcases List.mem_cons.mp ha with rfl | h
    · omega
    · have := hAv a h
      omega
  by_cases hH : st.head = 0
  · -- empty free list: the node starts the list
    have hlink : tufreeLink st q fuel =
        { st with mem := tufreeMem2 st.mem q, head := q } := by
      unfold tufreeLink
      rw [if_pos hH]
    have hg : tufreeGuard (tufreeLink st q fuel) q = tufreeLink st q fuel := by
      refine tufreeGuard_of_ne _ _ ?_
      rw [hlink]
      show readW (tufreeMem2 st.mem q) (q + 8) ≠ q
      rw [hnwnext]
      omega
    rw [hg, hlink]
    have hcf := coalesce_frame { st with mem := tufreeMem2 st.mem q, head := q }
      q fuel (q + 16) sz x (q :: chain st.mem st.head fuel)
      (Or.inr (List.mem_cons_self _ _))
      (by
        intro a ha
        rcases List.mem_cons.mp ha with rfl | h
        · left
          exact hnwnext
        · rw [hH, chain_nil] at h
          exact absurd h (List.not_mem_nil a))
      hSavoid (by omega) hx1 hx2
    rw [hcf]
    show tufreeMem2 st.mem q x = st.mem x
    exact hm2f x (by omega)
  · have hheadmem : st.head ∈ chain st.mem st.head fuel :=
      head_mem_chain st.mem st.head fuel hH hterm
    have hheadAv := hAv st.head hheadmem
    by_cases hB : readW (tufreeMem2 st.mem q) (st.head + 8) = 0
    · -- single-node free list: append as second element
      have hlink : tufreeLink st q fuel =
          { st with mem := writeW (tufreeMem2 st.mem q) (st.head + 8) q } := by
        unfold tufreeLink
        rw [if_neg hH, if_pos hB]
      have hg3 : readW (writeW (tufreeMem2 st.mem q) (st.head + 8) q)
          (q + 8) = 0 := by
        rw [readW_out _ _ _ _ (by omega)]
        exact hnwnext
      have hg : tufreeGuard (tufreeLink st q fuel) q =
          tufreeLink st q fuel := by
        refine tufreeGuard_of_ne _ _ ?_
        rw [hlink]
        show readW (writeW (tufreeMem2 st.mem q) (st.head + 8) q) (q + 8) ≠ q
        rw [hg3]
        omega
      rw [hg, hlink]
      have hcf := coalesce_frame
        { st with mem := writeW (tufreeMem2 st.mem q) (st.head + 8) q }
        q fuel (q + 16) sz x (q :: chain st.mem st.head fuel)
        (Or.inr (List.mem_cons_of_mem _ hheadmem))
        (by
          intro a ha
          rcases List.mem_cons.mp ha with rfl | h
          · left
            exact hg3
          · by_cases hah : a = st.head
            · right
              subst hah
              have e2 : readW (writeW (tufreeMem2 st.mem q) (st.head + 8) q)
                  (st.head + 8) = q := readW_writeW _ _ _ (by rw [h64]; omega)
              rw [e2]
              exact List.mem_cons_self _ _
            · have hsepa := hsep a h st.head hheadmem hah
              have e1 : readW (writeW (tufreeMem2 st.mem q) (st.head + 8) q)
                  (a + 8) = readW (tufreeMem2 st.mem q) (a + 8) :=
                readW_out _ _ _ _ (by omega)
              rw [e1, hreadm2 a h]
              rcases chain_next fuel st.mem st.head a hterm h with h0 | hmem
              · exact Or.inl h0
              · exact Or.inr (List.mem_cons_of_mem _ hmem))
        hSavoid (by omega) hx1 hx2
      rw [hcf]
      show writeW (tufreeMem2 st.mem q) (st.head + 8) q x = st.mem x
      rw [writeW_out _ _ _ _ (by omega)]
      exact hm2f x (by omega)
    · -- longer free list: address-ordered insertion scan
      have hlink : tufreeLink st q fuel = { st with mem :=
          (writeW
            (writeW (tufreeMem2 st.mem q) (q + 8)
              (readW (tufreeMem2 st.mem q)
                (insertScan (tufreeMem2 st.mem q) q st.head
                  (readW (tufreeMem2 st.mem q) (st.head + 8)) fuel + 8)))
            (insertScan (tufreeMem2 st.mem q) q st.head
              (readW (tufreeMem2 st.mem q) (st.head + 8)) fuel + 8) q) } := by
        unfold tufreeLink
        rw [if_neg hH, if_neg hB]
      set c := insertScan (tufreeMem2 st.mem q) q st.head
        (readW (tufreeMem2 st.mem q) (st.head + 8)) fuel with hcdef
      have hcmem : c ∈ chain st.mem st.head fuel := by
        rw [← hcheq]
        exact insertScan_mem fuel (tufreeMem2 st.mem q) q st.head _ hH hfol
      have hcAv := hAv c hcmem
      have hv3lt : readW (tufreeMem2 st.mem q) (c + 8) <
          18446744073709551616 := by
        rw [← h64]
        exact byteMem_readW_lt _ _ hb2
      have hv3 : readW (tufreeMem2 st.mem q) (c + 8) =
          readW st.mem (c + 8) := hreadm2 c hcmem
      have hv3set := chain_next fuel st.mem st.head c hterm hcmem
      have hv3ne : readW (tufreeMem2 st.mem q) (c + 8) ≠ q := by
        rw [hv3]
        rcases hv3set with h0 | hmem
        · omega
        · have := hAv _ hmem
          omega
      have hq8 : readW
          (writeW
            (writeW (tufreeMem2 st.mem q) (q + 8)
              (readW (tufreeMem2 st.mem q) (c + 8))) (c + 8) q) (q + 8) =
          readW (tufreeMem2 st.mem q) (c + 8) := by
        rw [readW_out _ _ _ _ (by omega)]
        exact readW_writeW _ _ _ (by rw [h64]; omega)
      have hg : tufreeGuard (tufreeLink st q fuel) q =
          tufreeLink st q fuel := by
        refine tufreeGuard_of_ne _ _ ?_
        rw [hlink]
        show readW
          (writeW
            (writeW (tufreeMem2 st.mem q) (q + 8)
              (readW (tufreeMem2 st.mem q) (c + 8))) (c + 8) q) (q + 8) ≠ q
        rw [hq8]
        exact hv3ne
      rw [hg, hlink]
      have hcf := coalesce_frame
        { st with mem :=
            (writeW
              (writeW (tufreeMem2 st.mem q) (q + 8)
                (readW (tufreeMem2 st.mem q) (c + 8))) (c + 8) q) }
        q fuel (q + 16) sz x (q :: chain st.mem st.head fuel)
        (Or.inr (List.mem_cons_of_mem _ hheadmem))
        (by
          intro a ha
          rcases List.mem_cons.mp ha with rfl | h
          · rw [hq8, hv3]
            rcases hv3set with h0 | hmem
            · exact Or.inl h0
            · exact Or.inr (List.mem_cons_of_mem _ hmem)
          · by_cases hac : a = c
            · right
              rw [hac]
              have e2 : readW
                  (writeW
                    (writeW (tufreeMem2 st.mem q) (q + 8)
                      (readW (tufreeMem2 st.mem q) (c + 8))) (c + 8) q)
                  (c + 8) = q := readW_writeW _ _ _ (by rw [h64]; omega)
              rw [e2]
              exact List.mem_cons_self _ _
            · have hsepa := hsep a h c hcmem hac
              have hAva := hAv a h
              have e1 : readW
                  (writeW
                    (writeW (tufreeMem2 st.mem q) (q + 8)
                      (readW (tufreeMem2 st.mem q) (c + 8))) (c + 8) q)
                  (a + 8) = readW (tufreeMem2 st.mem q) (a + 8) := by
                rw [readW_out _ _ _ _ (by omega),
                  readW_out _ _ _ _ (by omega)]
              rw [e1, hreadm2 a h]
              rcases chain_next fuel st.mem st.head a hterm h with h0 | hmem
              · exact Or.inl h0
              · exact Or.inr (List.mem_cons_of_mem _ hmem))
        hSavoid (by omega) hx1 hx2
      rw [hcf]
      show writeW
        (writeW (tufreeMem2 st.mem q) (q + 8)
          (readW (tufreeMem2 st.mem q) (c + 8))) (c + 8) q x = st.mem x
      rw [writeW_out _ _ _ _ (by omega), writeW_out _ _ _ _ (by omega)]
      exact hm2f x (by omega)

/-- Witness for claim C10: releasing the 10-byte block whose payload
starts at 100 in stFrame leaves the payload byte at 105 unchanged. -/
theorem tufree_preserves_payload_witness :
    (tufree stFrame 100 3).mem 105 = stFrame.mem 105 :=
  tufree_preserves_payload stFrame 100 10 3
    (byteMem_writeW _ _ _ (byteMem_writeW _ _ _ (fun _ => by norm_num)))
    (by norm_num) (by norm_num) (by decide) (by decide) (by decide)
    105 (by norm_num) (by norm_num)

end Alloc
